import Mathlib

/-!
Verification of the request-coalescing database loader (`GraphQLDatabaseLoader`)
and its query planner (`select`).

The development shallowly embeds the loader source:

* JS plain values (conditions, raw rows, flattened selections, nested objects
  built by object-path) are modelled by the inductive `J`.
* The loader's mutable fields (`_queue`, `_cache`, promise allocation, the
  armed immediate) are modelled by `LoaderState`; `loadOne`, `loadMany`,
  `batchLoadMany` and `clear` are state transformers returning promise ids.
* `processAll` consumes a captured queue; the awaited `qb.getRawMany()` call
  (the external query-builder/database boundary, together with the query
  construction it executes) is passed in as an `Except`-valued outcome, so a
  planning/execution failure is the `.error` case.
* The query planner `select` exists in two revisions in the repository: the
  one in `src/select.ts` (embedded as `selectV`) and the revision with a
  visited-relations set (embedded as `selectH`).  Both are embedded with an
  explicit fuel parameter because the `null`-selection branch recurses through
  the entity-relation graph, which can be cyclic; `none` means the recursion
  exceeded the given depth budget (source: unbounded recursion).
-/

namespace TypeormLoader

/-- JS plain values: the payloads of conditions, parsed GraphQL literals,
raw result-row cells and the nested objects built during demultiplexing. -/
inductive J where
  | nullJ : J
  | boolJ : Bool → J
  | numJ : Int → J
  | strJ : String → J
  | arrJ : List J → J
  | objJ : List (String × J) → J

/-- JS property lookup on a plain object (first binding wins; keys are unique
in objects built by the loader). -/
def objLookup : List (String × J) → String → Option J
  | [], _ => none
  | (k, v) :: rest, p => if k = p then some v else objLookup rest p

/-- JS property assignment / object-spread overwrite: replaces the binding in
place when the key exists, appends it otherwise (JS objects preserve key
insertion order). -/
def mapSet {α : Type} : List (String × α) → String → α → List (String × α)
  | [], k, v => [(k, v)]
  | (k', v') :: rest, k, v =>
    if k' = k then (k, v) :: rest else (k', v') :: mapSet rest k v

/-- `Map.get` of the loader cache (`_cache`). -/
def mapGet {α : Type} : List (String × α) → String → Option α
  | [], _ => none
  | (k, v) :: rest, p => if k = p then some v else mapGet rest p

/-- `Map.delete` of the loader cache. -/
def mapDelete {α : Type} : List (String × α) → String → List (String × α)
  | [], _ => []
  | (k', v) :: rest, k =>
    if k' = k then mapDelete rest k else (k', v) :: mapDelete rest k

/-- Minimal JSON string escaping used by `JSON.stringify` (quote and
backslash; control characters do not occur in the embedded inputs). -/
def escapeStr (s : String) : String :=
  String.join (s.data.map (fun c =>
    if c = '"' then "\\\"" else if c = '\\' then "\\\\" else String.singleton c))

mutual

/-- `JSON.stringify` on `J`, serializing object keys in insertion order
(exactly what the source's fingerprint computation feeds to the hash). -/
def stringifyJ : J → String
  | .nullJ => "null"
  | .boolJ true => "true"
  | .boolJ false => "false"
  | .numJ n => toString n
  | .strJ s => "\"" ++ escapeStr s ++ "\""
  | .arrJ xs => "[" ++ stringifyArr xs ++ "]"
  | .objJ fs => "\x7b" ++ stringifyObj fs ++ "\x7d"

/-- Comma-joined serialization of a JSON array body. -/
def stringifyArr : List J → String
  | [] => ""
  | [x] => stringifyJ x
  | x :: rest => stringifyJ x ++ "," ++ stringifyArr rest

/-- Comma-joined serialization of a JSON object body. -/
def stringifyObj : List (String × J) → String
  | [] => ""
  | [(k, v)] => "\"" ++ escapeStr k ++ "\":" ++ stringifyJ v
  | (k, v) :: rest =>
    "\"" ++ escapeStr k ++ "\":" ++ stringifyJ v ++ "," ++ stringifyObj rest

end

/-- Model of the md5-hex digest applied to the serialized key payload
(`crypto.createHash('md5').update(s).digest().toString('hex')`).  The digest
is a fixed deterministic function of the serialized string; no verified
property depends on the digest's actual value or on hash collisions (only on
"equal payloads give equal keys", which any deterministic function provides),
so the digest step is embedded as the identity on the payload. -/
def md5hex (s : String) : String := s

/-- A query condition (`where`): a JS object mapping field names to values. -/
def Cond : Type := List (String × J)

/-- The loader's cache key (fingerprint), from `loader.ts`:
`hash.update(JSON.stringify([ where, fields ])).digest().toString('hex')`.
`fields` is the flattened selection (`graphqlFields(info)`) when resolver info
was provided and JS `null` otherwise.  Note that the entity reference and the
one/many flag are not part of the serialized payload. -/
def cacheKey (whereC : Cond) (fields : Option J) : String :=
  md5hex (stringifyJ (J.arrJ [J.objJ whereC, fields.getD J.nullJ]))

/-- One entry of the loader's `_queue`: the request data plus the identity of
the promise whose `resolve`/`reject` were captured (promises are modelled by
numeric ids allocated by the loader state). -/
structure QueueItem where
  many : Bool
  key : String
  fields : Option J
  whereC : Cond
  entity : String
  promiseId : Nat

/-- The loader's mutable state: pending queue, cache (fingerprint to promise
id, in `Map` insertion order), a fresh-promise counter, and whether a flush
immediate is armed. -/
structure LoaderState where
  queue : List QueueItem
  cache : List (String × Nat)
  nextPromise : Nat
  immediate : Bool

/-- A freshly constructed loader. -/
def initialState : LoaderState :=
  { queue := [], cache := [], nextPromise := 0, immediate := false }

/-- `GraphQLDatabaseLoader.loadOne`: compute the fingerprint; if it is cached,
return the cached promise unchanged; otherwise allocate a promise, push a
`many := false` request onto the queue, cancel-and-rearm the flush immediate,
and cache the promise under the fingerprint.  `fields` stands for
`info ? graphqlFields(info) : null`. -/
def loadOne (st : LoaderState) (entity : String) (whereC : Cond) (fields : Option J) :
    Nat × LoaderState :=
  let key := cacheKey whereC fields
  match mapGet st.cache key with
  | some p => (p, st)
  | none =>
    let p := st.nextPromise
    (p, { queue := st.queue ++ [⟨false, key, fields, whereC, entity, p⟩],
          cache := mapSet st.cache key p,
          nextPromise := p + 1,
          immediate := true })

/-- `GraphQLDatabaseLoader.loadMany`: textually identical to `loadOne` except
that the queued request has `many := true`.  In particular it computes the
same fingerprint for the same `(where, fields)` pair. -/
def loadMany (st : LoaderState) (entity : String) (whereC : Cond) (fields : Option J) :
    Nat × LoaderState :=
  let key := cacheKey whereC fields
  match mapGet st.cache key with
  | some p => (p, st)
  | none =>
    let p := st.nextPromise
    (p, { queue := st.queue ++ [⟨true, key, fields, whereC, entity, p⟩],
          cache := mapSet st.cache key p,
          nextPromise := p + 1,
          immediate := true })

/-- `GraphQLDatabaseLoader.clear`: `this._cache.clear()`. -/
def clear (st : LoaderState) : LoaderState :=
  { st with cache := [] }

/-- `GraphQLDatabaseLoader.batchLoadMany`:
`Promise.all(where.map(w => this.loadOne(entity, w, info)))`.  The `map`
callback runs the (synchronous) body of `loadOne` once per condition, left to
right, threading the loader state; the returned ids are the per-condition
promises combined by `Promise.all`. -/
def batchLoadMany (st : LoaderState) (entity : String) (ws : List Cond) (fields : Option J) :
    List Nat × LoaderState :=
  ws.foldl
    (fun acc w =>
      let r := loadOne acc.2 entity w fields
      (acc.1 ++ [r.1], r.2))
    ([], st)

/-- Modelled from the spec: the element-wise fan-out of `loadOne` over each
condition, in input order ("defined as the element-wise fan-out of `loadOne`
over each condition"). -/
def fanOutLoadOne (st : LoaderState) (entity : String) :
    List Cond → Option J → List Nat × LoaderState
  | [], _ => ([], st)
  | w :: rest, fields =>
    let r := loadOne st entity w fields
    let rr := fanOutLoadOne r.2 entity rest fields
    (r.1 :: rr.1, rr.2)

/-- Is a JS value the SQL/JSON `null`?  (`n === null`). -/
def isNullJ : J → Bool
  | .nullJ => true
  | _ => false

/-- Is the first character list an initial segment of the second?
(char-level model of JS `String.prototype.startsWith`). -/
def charsLeadIn : List Char → List Char → Bool
  | [], _ => true
  | _ :: _, [] => false
  | a :: as, b :: bs => if a = b then charsLeadIn as bs else false

/-- JS `key.startsWith(alias)`. -/
def strStartsWith (s p : String) : Bool := charsLeadIn p.data s.data

/-- JS `key.substr(n)`: drop the first `n` characters. -/
def strDrop (s : String) (n : Nat) : String := String.mk (s.data.drop n)

/-- JS `key.replace(/_/g, '.')`: replace every underscore character by a
dot. -/
def underscoresToDots (s : String) : String :=
  String.mk (s.data.map (fun c => if c = '_' then '.' else c))

/-- Split a character list at every dot (the path segmentation performed by
`object-path` on a `'a.b.c'` path). -/
def splitDotsAux : List Char → List Char → List String
  | [], acc => [String.mk acc.reverse]
  | c :: rest, acc =>
    if c = '.' then String.mk acc.reverse :: splitDotsAux rest []
    else splitDotsAux rest (c :: acc)

/-- Split a dot path into its segments. -/
def splitDots (s : String) : List String := splitDotsAux s.data []

/-- `object-path`'s `set(obj, 'a.b.c', v)`: walk the dot path, descending into
existing intermediate objects and creating fresh ones otherwise, and assign
the leaf.  (A non-object value sitting at an intermediate segment is replaced
by a fresh object; numeric array segments do not occur in the embedded column
names.) -/
def pathSet : List (String × J) → List String → J → List (String × J)
  | o, [], _ => o
  | o, [k], v => mapSet o k v
  | o, k :: seg :: rest, v =>
    let sub := match objLookup o k with
      | some (.objJ s) => s
      | _ => []
    mapSet o k (J.objJ (pathSet sub (seg :: rest) v))

/-- A raw result row: flat mapping of aliased column names to cell values. -/
def RawRow : Type := List (String × J)

/-- `GraphQLDatabaseLoader.entityRawToObject`: keep the columns whose key is
prefixed by the request's alias, strip the prefix plus one separator
character, turn the remaining underscores into dots, merge into a single
object (later keys overwrite), return `null` if every remaining value is SQL
null, and otherwise expand the dot paths into a nested object. -/
def entityRawToObject (raw : RawRow) (aliasName : String) : Option J :=
  let entityRaw :=
    ((raw.filter (fun kv => strStartsWith kv.1 aliasName)).map
      (fun kv => (underscoresToDots (strDrop kv.1 (aliasName.length + 1)), kv.2))).foldl
      (fun acc kv => mapSet acc kv.1 kv.2) []
  if entityRaw.all (fun kv => isNullJ kv.2) then none
  else some (J.objJ (entityRaw.foldl (fun o kv => pathSet o (splitDots kv.1) kv.2) []))

/-- A relation descriptor from the entity metadata (external, read-only):
its property name, the target entity's name (which is also what
`relation.inverseEntityMetadata.targetName` and
`relation.inverseRelation.entityMetadata.targetName` resolve to), and the
identity of the inverse relation, when one is declared, as a pair
(declaring entity name, property name). -/
structure RelMeta where
  propertyName : String
  target : String
  inverseRelation : Option (String × String)

/-- Entity metadata: ordered scalar column property names and ordered
relation descriptors. -/
structure EntityMeta where
  columns : List String
  relations : List RelMeta

/-- The metadata registry (`connection.getMetadata`), keyed by entity name.
Entity references (`Function` values in the source) are embedded as their
names; reference identity is name equality. -/
def MetaDB : Type := String → EntityMeta

/-- A hydrated entity instance produced by `createEntityFromRaw`: the entity
name it was constructed from, the copied scalar properties, and the
recursively hydrated relation properties. -/
inductive Entity where
  | mk : String → List (String × J) → List (String × Entity) → Entity

mutual

/-- `GraphQLDatabaseLoader.createEntityFromRaw`: instantiate the entity, copy
every metadata column whose property name is present in the plain object, and
recursively hydrate every relation whose property name is present (against
`relation.inverseEntityMetadata.target`).  The source would throw a
`TypeError` if the value were not an object; that path is not exercised by
any verified claim and is embedded as an empty instance. -/
def createEntityFromRaw (mdb : MetaDB) (name : String) (value : J) : Entity :=
  match value with
  | .objJ fs =>
    Entity.mk name
      ((mdb name).columns.filterMap (fun c => (objLookup fs c).map (fun v => (c, v))))
      (hydrateRels mdb fs (mdb name).relations)
  | _ => Entity.mk name [] []

/-- The relation loop of `createEntityFromRaw`. -/
def hydrateRels (mdb : MetaDB) (fs : List (String × J)) : List RelMeta → List (String × Entity)
  | [] => []
  | r :: rest =>
    match hydrateLookup mdb r.target fs r.propertyName with
    | some e => (r.propertyName, e) :: hydrateRels mdb fs rest
    | none => hydrateRels mdb fs rest

/-- Lookup of one relation property in the plain object, hydrating the found
sub-object (fused with the lookup so that the recursion is on sub-terms). -/
def hydrateLookup (mdb : MetaDB) (target : String) : List (String × J) → String → Option Entity
  | [], _ => none
  | (k, v) :: rest, p =>
    if k = p then some (createEntityFromRaw mdb target v)
    else hydrateLookup mdb target rest p

end

/-- The value a request's promise is fulfilled with: `undefined`, a single
hydrated entity, or the deduplicated list of a "many" request. -/
inductive ResVal where
  | undef : ResVal
  | one : Entity → ResVal
  | many : List Entity → ResVal

/-- The settlement of a request's promise. -/
inductive Settled where
  | fulfilled : ResVal → Settled
  | rejected : String → Settled

/-- Is a settlement a fulfillment? -/
def Settled.isFulfilled : Settled → Bool
  | .fulfilled _ => true
  | .rejected _ => false

/-- Model of `deepEqual(r, entity)` in the "many" deduplication loop of
`processAll`.  The source compares the values stored in `results`, which are
the *Promise objects* returned by the async `createEntityFromRaw` (the call is
not awaited there; the code later resolves with `Promise.all(results)`).  The
deep-equal library compares non-primitive arguments by their own enumerable
properties; a Promise instance exposes none, so the comparison of any two of
these promises finds two empty key sets with equal prototypes and returns
true.  The hydrated entities the promises will fulfil with are never
inspected. -/
def deepEqualOnPromises (_a _b : Entity) : Bool := true

/-- One iteration of the demultiplexing loop of `processAll` for a single
request: the settlement performed and the cache update, or the thrown
exception (`Object.keys(undefined)` when no raw row carries the request's
alias on the "one" path).  Faithfully to the source, the fingerprint is
deleted from the cache only on the "many" path. -/
def demuxOne (mdb : MetaDB) (raw : List RawRow) (q : QueueItem)
    (cache : List (String × Nat)) :
    Except String (Settled × List (String × Nat)) :=
  if raw.length = 0 then .ok (.fulfilled .undef, cache)
  else if !q.many then
    match raw.find? (fun r => r.any (fun kv => strStartsWith kv.1 q.key)) with
    | none => .error "TypeError: Cannot convert undefined or null to object"
    | some container =>
      match entityRawToObject container q.key with
      | none => .ok (.fulfilled .undef, cache)
      | some obj =>
        .ok (.fulfilled (.one (createEntityFromRaw mdb q.entity obj)), cache)
  else
    let results := raw.foldl
      (fun acc r =>
        match entityRawToObject r q.key with
        | none => acc
        | some obj =>
          let e := createEntityFromRaw mdb q.entity obj
          if acc.any (fun prev => deepEqualOnPromises prev e) then acc
          else acc ++ [e])
      []
    .ok (.fulfilled (.many results), mapDelete cache q.key)

/-- The demultiplexing pass over the captured queue: settlements in queue
order and the resulting cache; stops at the first thrown exception, reporting
it together with the settlements already performed. -/
def runQueue (mdb : MetaDB) (raw : List RawRow) :
    List QueueItem → List (String × Nat) →
    List Settled × List (String × Nat) × Option String
  | [], cache => ([], cache, none)
  | q :: rest, cache =>
    match demuxOne mdb raw q cache with
    | .ok (s, cache') =>
      let r := runQueue mdb raw rest cache'
      (s :: r.1, r.2.1, r.2.2)
    | .error e => ([], cache, some e)

/-- `GraphQLDatabaseLoader.processAll` on an already-captured queue.  The
construction of the merged query and the awaited `qb.getRawMany()` (the
external query-builder/database boundary) are summarized by `rawRes`: a
planning or execution failure inside the `try` block is the `.error` case.
On failure the catch block rejects every captured request with that error and
deletes every captured fingerprint.  On success the queue is demultiplexed;
if an iteration throws, requests already settled in this pass keep their
settlement (a settled promise ignores the later `reject`; the deferred
settlement race of the hydrated-one path is not exercised by any verified
claim) and all remaining requests are rejected, and the catch block again
deletes every captured fingerprint. -/
def processAll (mdb : MetaDB) (queue : List QueueItem) (cache : List (String × Nat))
    (rawRes : Except String (List RawRow)) :
    List Settled × List (String × Nat) :=
  match rawRes with
  | .error e =>
    (queue.map (fun _ => .rejected e),
     queue.foldl (fun c q => mapDelete c q.key) cache)
  | .ok raw =>
    let r := runQueue mdb raw queue cache
    match r.2.2 with
    | none => (r.1, r.2.1)
    | some e =>
      (r.1 ++ (queue.drop r.1.length).map (fun _ => .rejected e),
       queue.foldl (fun c q => mapDelete c q.key) r.2.1)

/-- Model of `Promise.all` over a list of promise ids, given the settlement
each id eventually reaches: fulfilled with the list of values in order when
every promise fulfils, rejected with the first rejection otherwise. -/
def promiseAllModel (sigma : Nat → Settled) : List Nat → Except String (List ResVal)
  | [] => .ok []
  | p :: rest =>
    match sigma p with
    | .fulfilled v =>
      match promiseAllModel sigma rest with
      | .ok vs => .ok (v :: vs)
      | .error e => .error e
    | .rejected e => .error e

/-- Is an `Except` a success? -/
def isOkB {ε α : Type} : Except ε α → Bool
  | .ok _ => true
  | .error _ => false

/-- One accumulated join clause of the query builder: the join target (an
entity name or an `alias.property` path), the assigned alias, and the
optional ON condition with its bound parameters. -/
structure JoinClause where
  target : String
  joinAlias : String
  condition : Option String
  params : List (String × J)

/-- The query-builder state accumulated by the planner: FROM clauses,
LEFT JOIN clauses and SELECT clauses (selection expression and optional
alias), each appended in program order.  The builder never executes
anything. -/
structure QB where
  froms : List (String × String)
  joins : List JoinClause
  selects : List (String × Option String)

/-- The empty query builder (`connection.createQueryBuilder()`). -/
def QB.empty : QB := ⟨[], [], []⟩

/-- `qb.addFrom(entity, alias)`. -/
def QB.addFrom (qb : QB) (entity a : String) : QB :=
  { qb with froms := qb.froms ++ [(entity, a)] }

/-- `qb.leftJoin(target, alias, condition?, params?)`. -/
def QB.leftJoin (qb : QB) (target a : String) (condition : Option String)
    (params : List (String × J)) : QB :=
  { qb with joins := qb.joins ++ [⟨target, a, condition, params⟩] }

/-- `qb.addSelect(selection, alias?)`. -/
def QB.addSelect (qb : QB) (sel : String) (a : Option String) : QB :=
  { qb with selects := qb.selects ++ [(sel, a)] }

/-- The planner's `selection` argument, distinguishing the three JS states it
is compared against: the `null` sentinel ("select everything"), `undefined`
(a missing child selection, for which the planner does nothing), and an
actual `Selection` object (embedded as the JS plain value it is). -/
inductive SelArg where
  | jsNull : SelArg
  | jsUndef : SelArg
  | node : J → SelArg

/-- `selection.children` when it is a truthy object: a `Selection` value is a
plain object whose `children` property, when present, is always an object
(possibly empty, which is truthy in JS); absent/null children make both
planner branches fall through. -/
def childrenOf : J → Option (List (String × J))
  | .objJ fs =>
    match objLookup fs "children" with
    | some (.objJ cs) => some cs
    | _ => none
  | _ => none

/-- Lift a JS child-selection lookup result to a planner argument: a missing
key is JS `undefined`, never `null`. -/
def selArgOfChild : Option J → SelArg
  | some c => .node c
  | none => .jsUndef

mutual

/-- The query planner `select` of `src/select.ts`, with an explicit recursion
budget (`fuel`); `none` means the budget was exceeded, which embeds the
source's unbounded recursion (its `null`-selection branch re-enters every
relation with no cycle guard).  With a `Selection` object it projects exactly
the metadata columns whose property name is a key of `selection.children`
(aliased `alias_column`) and, for each relation whose property name is a key
of `selection.children`, left-joins `alias.targetName` under alias
`alias_targetName` and recurses with `selection.children[targetName]` (the
source looks the child selection up by the relation's *target* name). -/
def selectV (mdb : MetaDB) : Nat → SelArg → QB → String → String → Option QB
  | 0, _, _, _, _ => none
  | fuel + 1, selArg, qb, model, aliasName =>
    let meta := mdb model
    match selArg with
    | .node s =>
      match childrenOf s with
      | some cs =>
        let qb1 := (meta.columns.filter (fun c => (objLookup cs c).isSome)).foldl
          (fun acc c => acc.addSelect (aliasName ++ "." ++ c)
            (some (aliasName ++ "_" ++ c))) qb
        selectVRels mdb fuel cs qb1 aliasName meta.relations
      | none => some qb
    | .jsNull =>
      let qb1 := qb.addSelect aliasName none
      selectVRelsNull mdb fuel qb1 aliasName meta.relations
    | .jsUndef => some qb

/-- The relation loop of `selectV`'s `Selection` branch (the budget decreases
on every recursive call, so an exhausted budget — `none` — can only mean the
source recursed at least that often). -/
def selectVRels (mdb : MetaDB) : Nat → List (String × J) → QB → String → List RelMeta → Option QB
  | _, _, qb, _, [] => some qb
  | 0, _, _, _, _ :: _ => none
  | fuel + 1, cs, qb, aliasName, r :: rest =>
    if (objLookup cs r.propertyName).isSome then
      let childAlias := aliasName ++ "_" ++ r.target
      let qb1 := qb.leftJoin (aliasName ++ "." ++ r.target) childAlias none []
      match selectV mdb fuel (selArgOfChild (objLookup cs r.target)) qb1 r.target childAlias with
      | some qb2 => selectVRels mdb fuel cs qb2 aliasName rest
      | none => none
    else selectVRels mdb fuel cs qb aliasName rest

/-- The relation loop of `selectV`'s `null` branch: unconditionally joins
every relation and recurses with `null` (no visited set in this revision). -/
def selectVRelsNull (mdb : MetaDB) : Nat → QB → String → List RelMeta → Option QB
  | _, qb, _, [] => some qb
  | 0, _, _, _ :: _ => none
  | fuel + 1, qb, aliasName, r :: rest =>
    let childAlias := aliasName ++ "_" ++ r.propertyName
    let qb1 := qb.leftJoin (aliasName ++ "." ++ r.propertyName) childAlias none []
    match selectV mdb fuel .jsNull qb1 r.target childAlias with
    | some qb2 => selectVRelsNull mdb fuel qb2 aliasName rest
    | none => none

end

/-- Membership test of the visited-relations set (`history.has`), with
relations identified by (declaring entity name, property name). -/
def setHas : List (String × String) → (String × String) → Bool
  | [], _ => false
  | y :: rest, x => if y = x then true else setHas rest x

/-- `history.add`: a no-op when the element is already present. -/
def setAdd (h : List (String × String)) (x : String × String) : List (String × String) :=
  if setHas h x then h else h ++ [x]

mutual

/-- The repository's revised query planner `select` (the revision carrying a
`history: Set<RelationMetadata>` parameter), with an explicit recursion
budget.  The `Selection` branch additionally requires `relation.inverseRelation`
to exist, adds a FROM for the target entity, joins `alias.propertyName` under
alias `alias_targetName` and recurses with `selection.children[propertyName]`
(and no history argument, so the child's own `null` branches start fresh).
The `null` branch walks every relation: when the relation's *inverse* is in
`history` it only re-selects the current alias and skips the join; otherwise
it adds the relation itself to `history`, adds FROM and LEFT JOIN clauses and
recurses with `null`, threading the mutated set; relations without an inverse
contribute a single aliased column selection. -/
def selectH (mdb : MetaDB) :
    Nat → SelArg → QB → String → String → List (String × String) →
    Option (QB × List (String × String))
  | 0, _, _, _, _, _ => none
  | fuel + 1, selArg, qb, model, aliasName, history =>
    let meta := mdb model
    match selArg with
    | .node s =>
      match childrenOf s with
      | some cs =>
        let qb1 := (meta.columns.filter (fun c => (objLookup cs c).isSome)).foldl
          (fun acc c => acc.addSelect (aliasName ++ "." ++ c)
            (some (aliasName ++ "_" ++ c))) qb
        match selectHRelsSel mdb fuel cs qb1 aliasName meta.relations with
        | some qb2 => some (qb2, history)
        | none => none
      | none => some (qb, history)
    | .jsNull =>
      selectHRelsNull mdb fuel qb model aliasName meta.relations history
    | .jsUndef => some (qb, history)

/-- The relation loop of `selectH`'s `Selection` branch. -/
def selectHRelsSel (mdb : MetaDB) :
    Nat → List (String × J) → QB → String → List RelMeta → Option QB
  | _, _, qb, _, [] => some qb
  | 0, _, _, _, _ :: _ => none
  | fuel + 1, cs, qb, aliasName, r :: rest =>
    if (objLookup cs r.propertyName).isSome then
      match r.inverseRelation with
      | some _ =>
        let childAlias := aliasName ++ "_" ++ r.target
        let qb1 := (qb.addFrom r.target r.target).leftJoin
          (aliasName ++ "." ++ r.propertyName) childAlias none []
        match selectH mdb fuel (selArgOfChild (objLookup cs r.propertyName)) qb1
            r.target childAlias [] with
        | some (qb2, _) => selectHRelsSel mdb fuel cs qb2 aliasName rest
        | none => none
      | none => selectHRelsSel mdb fuel cs qb aliasName rest
    else selectHRelsSel mdb fuel cs qb aliasName rest

/-- The relation loop of `selectH`'s `null` branch, threading the mutated
visited set. -/
def selectHRelsNull (mdb : MetaDB) :
    Nat → QB → String → String → List RelMeta → List (String × String) →
    Option (QB × List (String × String))
  | _, qb, _, _, [], history => some (qb, history)
  | 0, _, _, _, _ :: _, _ => none
  | fuel + 1, qb, model, aliasName, r :: rest, history =>
    match r.inverseRelation with
    | some inv =>
      if setHas history inv then
        selectHRelsNull mdb fuel (qb.addSelect aliasName none) model aliasName rest history
      else
        let history1 := setAdd history (model, r.propertyName)
        let childAlias := aliasName ++ "_" ++ r.propertyName
        let qb1 := (qb.addFrom r.target r.target).leftJoin
          (aliasName ++ "." ++ r.propertyName) childAlias none []
        match selectH mdb fuel .jsNull qb1 r.target childAlias history1 with
        | some (qb2, history2) =>
          selectHRelsNull mdb fuel qb2 model aliasName rest history2
        | none => none
    | none =>
      selectHRelsNull mdb fuel
        (qb.addSelect (aliasName ++ "." ++ r.propertyName)
          (some (aliasName ++ "_" ++ r.propertyName)))
        model aliasName rest history

end

/-! Helper lemmas about the map model. -/

theorem mapGet_mapSet_self {α : Type} (m : List (String × α)) (k : String) (v : α) :
    mapGet (mapSet m k v) k = some v := by
  induction m with
  | nil => simp [mapSet, mapGet]
  | cons kv rest ih =>
    obtain ⟨k', v'⟩ := kv
    by_cases h : k' = k
    · simp [mapSet, mapGet, h]
    · simp [mapSet, mapGet, h, ih]

/-! Shared concrete fixtures for the closed theorems. -/

/-- A concrete condition, `\x7b id: 1 \x7d`. -/
def wId1 : Cond := [("id", J.numJ 1)]

/-- A concrete metadata registry: every entity has scalar columns `id` and
`title` and no relations. -/
def mdbPost : MetaDB := fun _ => ⟨["id", "title"], []⟩

/-! Claim C1. -/

/-- The loader state after a first `loadOne(User, (id: 1))` on a fresh
loader. -/
def c1State : LoaderState := (loadOne initialState "User" wId1 none).2

/-- Counterexample to claim C1: the two load requests below have equal
conditions and selections but different entity references (`User` vs
`Post`), yet they do *not* get different fingerprints — the second call finds
the first call's fingerprint in the cache and returns the first call's
promise with the state unchanged (no second queue slot), i.e. the two
semantically different requests share one cache entry. -/
theorem c1_counterexample :
    "User" ≠ "Post" ∧
    loadOne c1State "Post" wId1 none
      = ((loadOne initialState "User" wId1 none).1, c1State) := by
  exact ⟨by decide, rfl⟩

/-- Claim C1 (amended): the fingerprint is a deterministic function of the
condition and the flattened selection only — it does not depend on the entity
reference — so after any `loadOne` call, a second call with the same
condition and selection but an arbitrary (possibly different) entity
reference returns the first call's promise and leaves the loader state
unchanged. -/
theorem c1_amended (st : LoaderState) (e1 e2 : String) (w : Cond) (f : Option J) :
    loadOne (loadOne st e1 w f).2 e2 w f
      = ((loadOne st e1 w f).1, (loadOne st e1 w f).2) := by
  unfold loadOne
  cases h : mapGet st.cache (cacheKey w f) with
  | some p => simp [h]
  | none => simp [h, mapGet_mapSet_self]

/-! Claim C3. -/

/-- Claim C3 (single flight): while a request's cache entry for the
fingerprint of `(condition, selection)` still exists, a further `loadOne`
call with an identical entity, condition and selection returns the stored
promise unchanged and leaves the state — in particular the pending queue —
untouched, so no new request slot is appended. -/
theorem c3_single_flight (st : LoaderState) (e : String) (w : Cond) (f : Option J)
    (p : Nat) (h : mapGet st.cache (cacheKey w f) = some p) :
    loadOne st e w f = (p, st) := by
  unfold loadOne
  simp [h]

/-- A loader state whose cache already holds the fingerprint of
`((id: 1), no selection)` mapped to promise 7. -/
def c3State : LoaderState :=
  { queue := [], cache := [(cacheKey wId1 none, 7)], nextPromise := 8, immediate := false }

/-- Witness for C3 at a concrete state. -/
theorem c3_witness :
    mapGet c3State.cache (cacheKey wId1 none) = some 7 ∧
    loadOne c3State "Post" wId1 none = (7, c3State) :=
  ⟨rfl, c3_single_flight c3State "Post" wId1 none 7 rfl⟩

/-! Claim C10. -/

/-- Claim C10: the fingerprint distinguishes neither the entity reference nor
the one/many mode, so a `loadMany` call issued while the cache entry created
by an earlier `loadOne` with the same condition and selection still exists
returns that very `loadOne` promise unchanged — and the only request queued
for that fingerprint is the `many := false` request for the first call's
entity, which the executor will settle with a single entity or `undefined`
rather than with a list. -/
theorem c10_loadMany_returns_loadOne_future (st : LoaderState) (e1 e2 : String)
    (w : Cond) (f : Option J) (h : mapGet st.cache (cacheKey w f) = none) :
    loadMany (loadOne st e1 w f).2 e2 w f
      = ((loadOne st e1 w f).1, (loadOne st e1 w f).2) ∧
    (loadOne st e1 w f).2.queue
      = st.queue ++ [⟨false, cacheKey w f, f, w, e1, st.nextPromise⟩] := by
  unfold loadOne loadMany
  simp [h, mapGet_mapSet_self]

/-- Witness for C10 on a fresh loader: `loadMany(Post, ...)` after
`loadOne(User, ...)` with the same condition and no selection returns the
`loadOne` promise. -/
theorem c10_witness :
    mapGet initialState.cache (cacheKey wId1 none) = none ∧
    loadMany (loadOne initialState "User" wId1 none).2 "Post" wId1 none
      = ((loadOne initialState "User" wId1 none).1,
         (loadOne initialState "User" wId1 none).2) :=
  ⟨rfl, (c10_loadMany_returns_loadOne_future initialState "User" "Post" wId1 none rfl).1⟩

/-! Claim C5. -/

/-- A captured "many" request for `Post` with condition `(id: 1)` and no
selection, owning promise 0. -/
def qManyPost : QueueItem := ⟨true, cacheKey wId1 none, none, wId1, "Post", 0⟩

/-- Claim C5 fails on the code (code bug): when the whole batch's raw result
set is empty, the executor resolves a "many" request with `undefined`
(`if (!raw.length) return q.resolve(undefined)`), not with the empty
sequence its `Promise<(T|undefined)[]>` return type documents — and it also
skips the fingerprint eviction of the normal "many" path.  This theorem
evaluates the embedded executor at that failing input: the settlement is
`undefined`, which is not the empty sequence. -/
theorem c5_empty_raw_many_resolves_undefined :
    processAll mdbPost [qManyPost] [(qManyPost.key, 0)] (.ok [])
      = ([.fulfilled .undef], [(qManyPost.key, 0)]) ∧
    ResVal.undef ≠ ResVal.many [] := by
  constructor
  · rfl
  · intro h
    exact ResVal.noConfusion h

/-! Claim C2. -/

/-- A captured "one" request for `Post` with condition `(id: 1)` and no
selection, owning promise 0. -/
def qOnePost : QueueItem := ⟨false, cacheKey wId1 none, none, wId1, "Post", 0⟩

/-- A raw result row carrying the `qOnePost` alias with `id = 1`,
`title = "a"`. -/
def rawRow1 : RawRow :=
  [(qOnePost.key ++ "_id", J.numJ 1), (qOnePost.key ++ "_title", J.strJ "a")]

/-- The entity hydrated from `rawRow1`. -/
def entA : Entity := .mk "Post" [("id", J.numJ 1), ("title", J.strJ "a")] []

/-- Counterexample to claim C2: a `loadOne` ("one") request settles
successfully — fulfilled with the hydrated entity — yet its fingerprint is
still present in the cache afterwards (the executor's "one" path never
deletes it), and a subsequent identical `loadOne` call returns the settled
promise instead of re-querying. -/
theorem c2_counterexample :
    processAll mdbPost [qOnePost] [(qOnePost.key, 0)] (.ok [rawRow1])
      = ([.fulfilled (.one entA)], [(qOnePost.key, 0)]) ∧
    mapGet [(qOnePost.key, 0)] qOnePost.key = some 0 ∧
    loadOne { queue := [], cache := [(qOnePost.key, 0)], nextPromise := 1,
              immediate := false } "Post" wId1 none
      = (0, { queue := [], cache := [(qOnePost.key, 0)], nextPromise := 1,
              immediate := false }) := by
  refine ⟨?_, rfl, rfl⟩
  have hent : createEntityFromRaw mdbPost "Post"
      (J.objJ [("id", J.numJ 1), ("title", J.strJ "a")]) = entA := by
    simp [createEntityFromRaw, hydrateRels, mdbPost, objLookup, entA]
  calc processAll mdbPost [qOnePost] [(qOnePost.key, 0)] (.ok [rawRow1])
      = ([.fulfilled (.one (createEntityFromRaw mdbPost "Post"
          (J.objJ [("id", J.numJ 1), ("title", J.strJ "a")])))],
         [(qOnePost.key, 0)]) := rfl
    _ = ([.fulfilled (.one entA)], [(qOnePost.key, 0)]) := by rw [hent]

/-- The cache that the success path of `processAll` actually leaves behind:
nothing is evicted when the raw result set is empty, and otherwise exactly
the fingerprints of the "many" requests are evicted. -/
def manyKeysDeleted (queue : List QueueItem) (cache : List (String × Nat))
    (raw : List RawRow) : List (String × Nat) :=
  if raw.length = 0 then cache
  else queue.foldl (fun c q => if q.many then mapDelete c q.key else c) cache

theorem runQueue_cache_empty_raw (mdb : MetaDB) (raw : List RawRow)
    (hraw : raw.length = 0) :
    ∀ (queue : List QueueItem) (cache : List (String × Nat)),
      (runQueue mdb raw queue cache).2 = (cache, none) := by
  intro queue
  induction queue with
  | nil => intro cache; rfl
  | cons q rest ih =>
    intro cache
    have hd : demuxOne mdb raw q cache = .ok (.fulfilled .undef, cache) := by
      unfold demuxOne
      simp [hraw]
    simp [runQueue, hd, ih]

theorem runQueue_cache_nonempty_raw (mdb : MetaDB) (raw : List RawRow)
    (hraw : ¬ raw.length = 0) :
    ∀ (queue : List QueueItem) (cache : List (String × Nat)),
      (runQueue mdb raw queue cache).2.2 = none →
      (runQueue mdb raw queue cache).2.1
        = queue.foldl (fun c q => if q.many then mapDelete c q.key else c) cache := by
  intro queue
  induction queue with
  | nil => intro cache _; rfl
  | cons q rest ih =>
    intro cache hok
    by_cases hm : q.many
    · have hd : demuxOne mdb raw q cache
          = .ok (.fulfilled (.many (raw.foldl
              (fun acc r =>
                match entityRawToObject r q.key with
                | none => acc
                | some obj =>
                  let e := createEntityFromRaw mdb q.entity obj
                  if acc.any (fun prev => deepEqualOnPromises prev e) then acc
                  else acc ++ [e])
              [])), mapDelete cache q.key) := by
        unfold demuxOne
        simp [hraw, hm]
      rw [runQueue, hd] at hok ⊢
      simp only [List.foldl, hm, if_pos]
      exact ih (mapDelete cache q.key) hok
    · rw [runQueue] at hok ⊢
      unfold demuxOne at hok ⊢
      simp only [hraw, if_false, hm] at hok ⊢
      cases hfind : raw.find? (fun r => r.any (fun kv => strStartsWith kv.1 q.key)) with
      | none =>
        simp [hfind] at hok
      | some container =>
        cases hobj : entityRawToObject container q.key with
        | none =>
          simp only [hfind, hobj] at hok ⊢
          simpa [List.foldl, hm] using ih cache hok
        | some obj =>
          simp only [hfind, hobj] at hok ⊢
          simpa [List.foldl, hm] using ih cache hok

/-- Claim C2 (amended): on a successful executor pass, a settled request's
fingerprint is evicted from the cache only for "many" requests, and only when
the batch's raw result set is non-empty; on every success path of a "one"
request — and for every request when the raw result set is empty — the
fingerprint stays cached, so a subsequent identical call reuses the settled
promise rather than re-querying.  (Eviction of every captured fingerprint on
batch failure is claim C4.) -/
theorem c2_amended (mdb : MetaDB) (queue : List QueueItem)
    (cache : List (String × Nat)) (raw : List RawRow)
    (hok : (runQueue mdb raw queue cache).2.2 = none) :
    (processAll mdb queue cache (.ok raw)).2 = manyKeysDeleted queue cache raw := by
  have hp : (processAll mdb queue cache (.ok raw)).2
      = (runQueue mdb raw queue cache).2.1 := by
    unfold processAll
    dsimp only
    rw [hok]
  rw [hp]
  unfold manyKeysDeleted
  by_cases hraw : raw.length = 0
  · have h2 := runQueue_cache_empty_raw mdb raw hraw queue cache
    rw [h2]
    simp [hraw]
  · have h2 := runQueue_cache_nonempty_raw mdb raw hraw queue cache hok
    rw [h2]
    simp [hraw]

/-- A second concrete condition, `\x7b id: 2 \x7d`. -/
def wId2 : Cond := [("id", J.numJ 2)]

/-- A captured "many" request for `Post` with condition `(id: 2)`. -/
def qMany2 : QueueItem := ⟨true, cacheKey wId2 none, none, wId2, "Post", 1⟩

/-- Witness for the amended C2: in a batch holding a "one" and a "many"
request, the success pass evicts exactly the "many" fingerprint. -/
theorem c2_amended_witness :
    (runQueue mdbPost [rawRow1] [qOnePost, qMany2]
        [(qOnePost.key, 0), (qMany2.key, 1)]).2.2 = none ∧
    (processAll mdbPost [qOnePost, qMany2] [(qOnePost.key, 0), (qMany2.key, 1)]
        (.ok [rawRow1])).2
      = manyKeysDeleted [qOnePost, qMany2] [(qOnePost.key, 0), (qMany2.key, 1)]
          [rawRow1] :=
  ⟨rfl, c2_amended mdbPost [qOnePost, qMany2] [(qOnePost.key, 0), (qMany2.key, 1)]
    [rawRow1] rfl⟩

/-! Claim C4. -/

theorem mapGet_mapDelete_self {α : Type} (m : List (String × α)) (k : String) :
    mapGet (mapDelete m k) k = none := by
  induction m with
  | nil => rfl
  | cons kv rest ih =>
    obtain ⟨k', v⟩ := kv
    by_cases h : k' = k
    · simp [mapDelete, h, ih]
    · simp [mapDelete, mapGet, h, ih]

theorem mapGet_mapDelete_none {α : Type} (m : List (String × α)) (k k' : String)
    (h : mapGet m k = none) : mapGet (mapDelete m k') k = none := by
  induction m with
  | nil => rfl
  | cons kv rest ih =>
    obtain ⟨k0, v⟩ := kv
    rw [mapGet] at h
    split at h
    · cases h
    · rw [mapDelete]
      split
      · exact ih h
      · rw [mapGet]
        split
        · simp_all
        · exact ih h

theorem foldDelete_none (queue : List QueueItem) (k : String) :
    ∀ cache : List (String × Nat), mapGet cache k = none →
      mapGet (queue.foldl (fun c q => mapDelete c q.key) cache) k = none := by
  induction queue with
  | nil => intro cache h; exact h
  | cons q rest ih =>
    intro cache h
    exact ih (mapDelete cache q.key) (mapGet_mapDelete_none cache k q.key h)

theorem foldDelete_mem (queue : List QueueItem) :
    ∀ (cache : List (String × Nat)) (q : QueueItem), q ∈ queue →
      mapGet (queue.foldl (fun c q => mapDelete c q.key) cache) q.key = none := by
  induction queue with
  | nil => intro cache q h; cases h
  | cons q0 rest ih =>
    intro cache q h
    rcases List.mem_cons.mp h with h1 | h2
    · subst h1
      exact foldDelete_none rest q.key (mapDelete cache q.key)
        (mapGet_mapDelete_self cache q.key)
    · exact ih (mapDelete cache q0.key) q h2

/-- Claim C4 (batch failure atomicity): when the merged query's planning or
execution raises an error, the executor rejects every request of the captured
queue — whatever entity it targets — with that same error, evicts every
captured fingerprint from the cache, and fulfils nothing. -/
theorem c4_batch_failure_atomicity (mdb : MetaDB) (queue : List QueueItem)
    (cache : List (String × Nat)) (e : String) :
    (processAll mdb queue cache (.error e)).1.length = queue.length ∧
    (∀ s ∈ (processAll mdb queue cache (.error e)).1, s = .rejected e) ∧
    (∀ q ∈ queue, mapGet (processAll mdb queue cache (.error e)).2 q.key = none) ∧
    (∀ s ∈ (processAll mdb queue cache (.error e)).1, s.isFulfilled = false) := by
  refine ⟨by simp [processAll], ?_, ?_, ?_⟩
  · intro s hs
    simp only [processAll, List.mem_map] at hs
    obtain ⟨q, _, hq⟩ := hs
    exact hq.symm
  · intro q hq
    simpa [processAll] using foldDelete_mem queue cache q hq
  · intro s hs
    simp only [processAll, List.mem_map] at hs
    obtain ⟨q, _, hq⟩ := hs
    simp [← hq, Settled.isFulfilled]

/-- Witness for C4 at a concrete batch of two requests over different
entities. -/
theorem c4_witness :
    (processAll mdbPost [qOnePost, qMany2] [(qOnePost.key, 0), (qMany2.key, 1)]
        (.error "connection lost")).1
      = [.rejected "connection lost", .rejected "connection lost"] ∧
    mapGet (processAll mdbPost [qOnePost, qMany2]
        [(qOnePost.key, 0), (qMany2.key, 1)] (.error "connection lost")).2
        qMany2.key
      = none :=
  ⟨rfl,
    (c4_batch_failure_atomicity mdbPost [qOnePost, qMany2]
      [(qOnePost.key, 0), (qMany2.key, 1)] "connection lost").2.2.1 qMany2
      (by simp)⟩

/-! Claim C6. -/

theorem batchLoadMany_foldl_eq (e : String) (f : Option J) :
    ∀ (ws : List Cond) (st : LoaderState) (acc : List Nat),
      ws.foldl
        (fun acc w =>
          let r := loadOne acc.2 e w f
          (acc.1 ++ [r.1], r.2))
        (acc, st)
      = (acc ++ (fanOutLoadOne st e ws f).1, (fanOutLoadOne st e ws f).2) := by
  intro ws
  induction ws with
  | nil => intro st acc; simp [fanOutLoadOne]
  | cons w rest ih =>
    intro st acc
    simp only [List.foldl, fanOutLoadOne]
    rw [ih]
    simp

theorem fanOutLoadOne_length (e : String) (f : Option J) :
    ∀ (ws : List Cond) (st : LoaderState),
      (fanOutLoadOne st e ws f).1.length = ws.length := by
  intro ws
  induction ws with
  | nil => intro st; rfl
  | cons w rest ih => intro st; simp [fanOutLoadOne, ih]

theorem promiseAll_isOk (sigma : Nat → Settled) :
    ∀ ps : List Nat,
      isOkB (promiseAllModel sigma ps) = ps.all (fun p => (sigma p).isFulfilled) := by
  intro ps
  induction ps with
  | nil => rfl
  | cons p rest ih =>
    rw [promiseAllModel, List.all_cons]
    cases hs : sigma p with
    | fulfilled v =>
      cases hr : promiseAllModel sigma rest with
      | ok vs =>
        rw [hr] at ih
        dsimp only
        simp only [isOkB, Settled.isFulfilled, Bool.true_and] at ih ⊢
        exact ih
      | error e2 =>
        rw [hr] at ih
        dsimp only
        simp only [isOkB, Settled.isFulfilled, Bool.true_and] at ih ⊢
        exact ih
    | rejected e1 =>
      simp only [isOkB, Settled.isFulfilled, Bool.false_and]

/-- Claim C6: `batchLoadMany` is exactly the element-wise fan-out of
`loadOne` over the condition sequence — same promises, in input order, same
final loader state — its promise list has the input's length, and its
`Promise.all` combination fulfils exactly when every constituent `loadOne`
promise fulfils (equivalently, it rejects exactly when some constituent
rejects). -/
theorem c6_batchLoadMany_is_fanout (st : LoaderState) (e : String) (ws : List Cond)
    (f : Option J) :
    batchLoadMany st e ws f = fanOutLoadOne st e ws f ∧
    (batchLoadMany st e ws f).1.length = ws.length ∧
    ∀ sigma : Nat → Settled,
      isOkB (promiseAllModel sigma (batchLoadMany st e ws f).1)
        = (batchLoadMany st e ws f).1.all (fun p => (sigma p).isFulfilled) := by
  have hb : batchLoadMany st e ws f = fanOutLoadOne st e ws f := by
    unfold batchLoadMany
    rw [batchLoadMany_foldl_eq e f ws st []]
    simp
  refine ⟨hb, ?_, ?_⟩
  · rw [hb]
    exact fanOutLoadOne_length e f ws st
  · intro sigma
    exact promiseAll_isOk sigma (batchLoadMany st e ws f).1

/-- Witness for C6 at a concrete input: two conditions on a fresh loader. -/
theorem c6_witness :
    batchLoadMany initialState "Post" [wId1, wId2] none
      = fanOutLoadOne initialState "Post" [wId1, wId2] none ∧
    (batchLoadMany initialState "Post" [wId1, wId2] none).1.length = 2 :=
  ⟨(c6_batchLoadMany_is_fanout initialState "Post" [wId1, wId2] none).1,
   (c6_batchLoadMany_is_fanout initialState "Post" [wId1, wId2] none).2.1⟩

/-! Claim C9. -/

/-- A second raw result row under the same alias, hydrating a structurally
different entity (`id = 2`, `title = "b"`). -/
def rawRow2 : RawRow :=
  [(qManyPost.key ++ "_id", J.numJ 2), (qManyPost.key ++ "_title", J.strJ "b")]

/-- The entity `rawRow2` hydrates to. -/
def entB : Entity := .mk "Post" [("id", J.numJ 2), ("title", J.strJ "b")] []

/-- Claim C9 fails on the code (code bug): the "many" deduplication loop
compares the un-awaited Promise objects returned by `createEntityFromRaw`
with the deep-equal library, and any two such promises compare equal (they
expose no enumerable properties), so every entity after the first is
discarded as a "duplicate" even when the hydrated entities are structurally
different.  Evaluating the embedded executor on two raw rows that hydrate
the distinct entities `entA` and `entB`: the "many" request is fulfilled
with `[entA]` alone — not with one occurrence of each distinct entity — and
this also contradicts the repository's own `loadMany` test, which expects
every owned post in the result. -/
theorem c9_dedup_drops_distinct_entities :
    processAll mdbPost [qManyPost] [(qManyPost.key, 0)] (.ok [rawRow1, rawRow2])
      = ([.fulfilled (.many [entA])], []) ∧
    entA ≠ entB := by
  constructor
  · have hent : createEntityFromRaw mdbPost "Post"
        (J.objJ [("id", J.numJ 1), ("title", J.strJ "a")]) = entA := by
      simp [createEntityFromRaw, hydrateRels, mdbPost, objLookup, entA]
    calc processAll mdbPost [qManyPost] [(qManyPost.key, 0)] (.ok [rawRow1, rawRow2])
        = ([.fulfilled (.many [createEntityFromRaw mdbPost "Post"
            (J.objJ [("id", J.numJ 1), ("title", J.strJ "a")])])], []) := rfl
      _ = ([.fulfilled (.many [entA])], []) := by rw [hent]
  · intro h
    simp [entA, entB] at h

/-! Claim C8. -/

theorem setHas_append_false (h : List (String × String)) (x y : String × String)
    (hy : setHas h y = false) (hxy : ¬ x = y) : setHas (h ++ [x]) y = false := by
  induction h with
  | nil => simp [setHas, hxy]
  | cons z rest ih =>
    rw [setHas] at hy
    rw [List.cons_append, setHas]
    split at hy
    · cases hy
    · rw [if_neg (by assumption)]
      exact ih hy

theorem setHas_setAdd_false (h : List (String × String)) (x y : String × String)
    (hy : setHas h y = false) (hxy : ¬ x = y) : setHas (setAdd h x) y = false := by
  unfold setAdd
  split
  · exact hy
  · exact setHas_append_false h x y hy hxy

/-- A self-referential metadata graph: entity `A` carries the relation pair
`parent : A` and `children : A`, each declared as the other's inverse (the
shape of a typical parent/children self-relation). -/
def mdbSelfRef : MetaDB := fun _ =>
  ⟨["id"], [⟨"parent", "A", some ("A", "children")⟩,
            ⟨"children", "A", some ("A", "parent")⟩]⟩

/-- The two-entity bidirectional graph of the spec's example: `A` relates to
`B` which relates back to `A`. -/
def mdbAB : MetaDB := fun n =>
  if n = "A" then ⟨["id"], [⟨"b", "B", some ("B", "a")⟩]⟩
  else ⟨["id"], [⟨"a", "A", some ("A", "b")⟩]⟩

/-- On `mdbSelfRef`, the null-selection traversal of `selectH` exhausts every
recursion budget: processing the `parent` relation adds `(A, parent)` to the
visited set but guards on membership of its *inverse* `(A, children)`, which
is never added, so the planner re-enters `A` through `parent` unboundedly. -/
theorem selectH_selfRef_diverges :
    ∀ (fuel : Nat) (qb : QB) (a : String) (h : List (String × String)),
      setHas h ("A", "children") = false →
      selectH mdbSelfRef fuel .jsNull qb "A" a h = none := by
  intro fuel
  induction fuel using Nat.strong_induction_on with
  | _ fuel ih =>
    match fuel with
    | 0 => intro qb a h _; rfl
    | n + 1 =>
      intro qb a h hh
      show selectHRelsNull mdbSelfRef n qb "A" a
        [⟨"parent", "A", some ("A", "children")⟩,
         ⟨"children", "A", some ("A", "parent")⟩] h = none
      match n with
      | 0 => rfl
      | m + 1 =>
        rw [selectHRelsNull]
        have hrec := ih m (by omega)
          ((qb.addFrom "A" "A").leftJoin (a ++ "." ++ "parent") (a ++ "_" ++ "parent") none [])
          (a ++ "_" ++ "parent") (setAdd h ("A", "parent"))
          (setHas_setAdd_false h ("A", "parent") ("A", "children") hh (by decide))
        simp only [hh, Bool.false_eq_true, if_false, hrec]

/-- Claim C8 fails on the code (code bug): the revised planner does maintain
a visited-relations set, and on the spec's two-entity bidirectional example
(`A` relates to `B` which relates back to `A`) the null-selection traversal
terminates — but it does not terminate for every finite metadata graph: on a
self-referential relation pair (`parent`/`children` on one entity, each the
other's inverse) the guard tests membership of the relation's *inverse* while
only the relation itself is recorded, so the traversal re-enters the entity
forever (in the embedding, it returns `none` — budget exhausted — for every
recursion budget).  The `src/select.ts` revision of the planner has no
visited set at all.  Moreover, on a guard hit the code re-selects the current
alias's full column set (`addSelect(alias)`), not the relation's identity
columns. -/
theorem c8_null_selection_termination :
    (∀ fuel : Nat,
      selectH mdbSelfRef fuel .jsNull QB.empty "A" "root" [] = none) ∧
    (selectH mdbAB 4 .jsNull QB.empty "A" "root" []).isSome = true := by
  constructor
  · intro fuel
    exact selectH_selfRef_diverges fuel QB.empty "root" [] rfl
  · rfl

/-! Claim C7. -/

/-- `Requested cs p`: the property name `p` is a key of the children map
`cs`, either at this level or at some deeper level reachable through a child
selection's own `children` map — i.e. `p` was actually requested somewhere in
the selection tree rooted at `cs`. -/
inductive Requested : List (String × J) → String → Prop where
  | here {cs : List (String × J)} {p : String} :
      (objLookup cs p).isSome = true → Requested cs p
  | deeper {cs : List (String × J)} {q p : String} {c : J} {ccs : List (String × J)} :
      objLookup cs q = some c → childrenOf c = some ccs → Requested ccs p →
      Requested cs p

/-- A projection entry the planner is allowed to add for the selection
children `cs`: it selects `a.p` under alias `a_p` for a property `p` that is
a metadata column somewhere and is requested in the selection tree. -/
def GoodSel (mdb : MetaDB) (cs : List (String × J)) (x : String × Option String) : Prop :=
  ∃ (a p : String), Requested cs p ∧ (∃ ent : String, p ∈ (mdb ent).columns) ∧
    x = (a ++ "." ++ p, some (a ++ "_" ++ p))

/-- A join `selectV` is allowed to add: it joins `a.targetName` under alias
`a_targetName` for a metadata relation whose *property name* is requested in
the selection tree. -/
def GoodJoinV (mdb : MetaDB) (cs : List (String × J)) (j : JoinClause) : Prop :=
  ∃ (a ent : String) (r : RelMeta), r ∈ (mdb ent).relations ∧
    Requested cs r.propertyName ∧
    j = ⟨a ++ "." ++ r.target, a ++ "_" ++ r.target, none, []⟩

/-- A join `selectH` is allowed to add: it joins `a.propertyName` under alias
`a_targetName` for a metadata relation whose property name is requested in
the selection tree. -/
def GoodJoinH (mdb : MetaDB) (cs : List (String × J)) (j : JoinClause) : Prop :=
  ∃ (a ent : String) (r : RelMeta), r ∈ (mdb ent).relations ∧
    Requested cs r.propertyName ∧
    j = ⟨a ++ "." ++ r.propertyName, a ++ "_" ++ r.target, none, []⟩

/-- Projection minimality relative to the selection children `cs`: every
SELECT entry of `qb'` was either already in `qb` or is a requested column
projection, and every JOIN of `qb'` was either already in `qb` or is a join
allowed by `goodJoin` (i.e. for a requested relation). -/
def MinimalAdds (mdb : MetaDB) (cs : List (String × J)) (goodJoin : JoinClause → Prop)
    (qb qb' : QB) : Prop :=
  (∀ x ∈ qb'.selects, x ∈ qb.selects ∨ GoodSel mdb cs x) ∧
  (∀ j ∈ qb'.joins, j ∈ qb.joins ∨ goodJoin j)

theorem MinimalAdds.refl (mdb : MetaDB) (cs : List (String × J))
    (goodJoin : JoinClause → Prop) (qb : QB) : MinimalAdds mdb cs goodJoin qb qb :=
  ⟨fun _ hx => Or.inl hx, fun _ hj => Or.inl hj⟩

theorem MinimalAdds.trans {mdb : MetaDB} {cs : List (String × J)}
    {goodJoin : JoinClause → Prop} {qb qb1 qb2 : QB}
    (h1 : MinimalAdds mdb cs goodJoin qb qb1)
    (h2 : MinimalAdds mdb cs goodJoin qb1 qb2) :
    MinimalAdds mdb cs goodJoin qb qb2 := by
  refine ⟨fun x hx => ?_, fun j hj => ?_⟩
  · rcases h2.1 x hx with h | h
    · exact h1.1 x h
    · exact Or.inr h
  · rcases h2.2 j hj with h | h
    · exact h1.2 j h
    · exact Or.inr h

theorem MinimalAdds.mono_lift {mdb : MetaDB} {cs cs' : List (String × J)}
    {gj gj' : JoinClause → Prop} {qb qb' : QB}
    (hs : ∀ x, GoodSel mdb cs' x → GoodSel mdb cs x)
    (hj : ∀ j, gj' j → gj j)
    (h : MinimalAdds mdb cs' gj' qb qb') : MinimalAdds mdb cs gj qb qb' := by
  refine ⟨fun x hx => ?_, fun j hjj => ?_⟩
  · rcases h.1 x hx with h0 | h0
    · exact Or.inl h0
    · exact Or.inr (hs x h0)
  · rcases h.2 j hjj with h0 | h0
    · exact Or.inl h0
    · exact Or.inr (hj j h0)

theorem GoodSel_lift {mdb : MetaDB} {cs ccs : List (String × J)} {q : String} {c : J}
    (hq : objLookup cs q = some c) (hc : childrenOf c = some ccs) :
    ∀ x, GoodSel mdb ccs x → GoodSel mdb cs x := by
  rintro x ⟨a, p, hreq, hcol, hx⟩
  exact ⟨a, p, Requested.deeper hq hc hreq, hcol, hx⟩

theorem GoodJoinV_lift {mdb : MetaDB} {cs ccs : List (String × J)} {q : String} {c : J}
    (hq : objLookup cs q = some c) (hc : childrenOf c = some ccs) :
    ∀ j, GoodJoinV mdb ccs j → GoodJoinV mdb cs j := by
  rintro j ⟨a, ent, r, hr, hreq, hj⟩
  exact ⟨a, ent, r, hr, Requested.deeper hq hc hreq, hj⟩

theorem GoodJoinH_lift {mdb : MetaDB} {cs ccs : List (String × J)} {q : String} {c : J}
    (hq : objLookup cs q = some c) (hc : childrenOf c = some ccs) :
    ∀ j, GoodJoinH mdb ccs j → GoodJoinH mdb cs j := by
  rintro j ⟨a, ent, r, hr, hreq, hj⟩
  exact ⟨a, ent, r, hr, Requested.deeper hq hc hreq, hj⟩

theorem foldAddSelect_spec (a : String) :
    ∀ (cols : List String) (qb : QB),
      cols.foldl (fun acc c => acc.addSelect (a ++ "." ++ c) (some (a ++ "_" ++ c))) qb
        = ⟨qb.froms, qb.joins,
           qb.selects ++ cols.map (fun c => (a ++ "." ++ c, some (a ++ "_" ++ c)))⟩ := by
  intro cols
  induction cols with
  | nil => intro qb; cases qb; simp
  | cons c rest ih =>
    intro qb
    rw [List.foldl, ih]
    simp [QB.addSelect]

/-- The column-projection fold of either planner only adds requested column
selections. -/
theorem fold_minimal (mdb : MetaDB) (cs : List (String × J))
    (goodJoin : JoinClause → Prop) (model a : String) (qb : QB) :
    MinimalAdds mdb cs goodJoin qb
      (((mdb model).columns.filter (fun c => (objLookup cs c).isSome)).foldl
        (fun acc c => acc.addSelect (a ++ "." ++ c) (some (a ++ "_" ++ c))) qb) := by
  rw [foldAddSelect_spec]
  refine ⟨fun x hx => ?_, fun j hj => Or.inl hj⟩
  rcases List.mem_append.mp hx with h | h
  · exact Or.inl h
  · rcases List.mem_map.mp h with ⟨c, hc, hx2⟩
    have hcol := List.mem_filter.mp hc
    exact Or.inr ⟨a, c, Requested.here hcol.2, ⟨model, hcol.1⟩, hx2.symm⟩

/-- `selectV`'s per-relation join step only adds a join for a requested
relation. -/
theorem joinV_minimal (mdb : MetaDB) (cs : List (String × J)) {ent : String}
    {r : RelMeta} (hr : r ∈ (mdb ent).relations)
    (hreq : (objLookup cs r.propertyName).isSome = true) (a : String) (qb : QB) :
    MinimalAdds mdb cs (GoodJoinV mdb cs) qb
      (qb.leftJoin (a ++ "." ++ r.target) (a ++ "_" ++ r.target) none []) := by
  refine ⟨fun x hx => Or.inl hx, fun j hj => ?_⟩
  rcases List.mem_append.mp hj with h | h
  · exact Or.inl h
  · rcases List.mem_singleton.mp h with rfl
    exact Or.inr ⟨a, ent, r, hr, Requested.here hreq, rfl⟩

theorem selectV_minimal_aux (mdb : MetaDB) :
    ∀ fuel : Nat,
      (∀ (s : J) (cs : List (String × J)) (qb : QB) (model a : String) (qb' : QB),
        childrenOf s = some cs →
        selectV mdb fuel (.node s) qb model a = some qb' →
        MinimalAdds mdb cs (GoodJoinV mdb cs) qb qb') ∧
      (∀ (cs : List (String × J)) (qb : QB) (a : String) (rels : List RelMeta) (qb' : QB),
        (∀ r ∈ rels, ∃ ent, r ∈ (mdb ent).relations) →
        selectVRels mdb fuel cs qb a rels = some qb' →
        MinimalAdds mdb cs (GoodJoinV mdb cs) qb qb') := by
  intro fuel
  induction fuel using Nat.strong_induction_on with
  | _ fuel ih =>
    constructor
    · intro s cs qb model a qb' hcs hsel
      cases fuel with
      | zero => simp [selectV] at hsel
      | succ f =>
        simp only [selectV] at hsel
        rw [hcs] at hsel
        exact (fold_minimal mdb cs (GoodJoinV mdb cs) model a qb).trans
          ((ih f (Nat.lt_succ_self f)).2 cs _ a (mdb model).relations qb'
            (fun r hr => ⟨model, hr⟩) hsel)
    · intro cs qb a rels qb' hrels hsel
      cases rels with
      | nil =>
        cases fuel with
        | zero =>
          simp only [selectVRels, Option.some.injEq] at hsel
          rw [← hsel]
          exact MinimalAdds.refl mdb cs _ qb
        | succ f =>
          simp only [selectVRels, Option.some.injEq] at hsel
          rw [← hsel]
          exact MinimalAdds.refl mdb cs _ qb
      | cons r rest =>
        cases fuel with
        | zero => simp [selectVRels] at hsel
        | succ f =>
          have hmem : ∃ ent, r ∈ (mdb ent).relations := hrels r (List.mem_cons_self r rest)
          obtain ⟨ent, hent⟩ := hmem
          have hrest : ∀ r' ∈ rest, ∃ ent, r' ∈ (mdb ent).relations :=
            fun r' hr' => hrels r' (List.mem_cons_of_mem r hr')
          simp only [selectVRels] at hsel
          by_cases hp : (objLookup cs r.propertyName).isSome = true
          · rw [if_pos hp] at hsel
            have hjoin := joinV_minimal mdb cs hent hp a qb
            cases hch : objLookup cs r.target with
            | none =>
              rw [hch] at hsel
              simp only [selArgOfChild] at hsel
              cases f with
              | zero => simp [selectV] at hsel
              | succ f2 =>
                simp only [selectV] at hsel
                exact hjoin.trans
                  ((ih (f2 + 1) (Nat.lt_succ_self (f2 + 1))).2 cs _ a rest qb' hrest hsel)
            | some c =>
              rw [hch] at hsel
              simp only [selArgOfChild] at hsel
              cases f with
              | zero => simp [selectV] at hsel
              | succ f2 =>
                cases hcc : childrenOf c with
                | none =>
                  simp only [selectV] at hsel
                  rw [hcc] at hsel
                  exact hjoin.trans
                    ((ih (f2 + 1) (Nat.lt_succ_self (f2 + 1))).2 cs _ a rest qb' hrest hsel)
                | some ccs =>
                  cases hinner : selectV mdb (f2 + 1) (.node c)
                      (qb.leftJoin (a ++ "." ++ r.target) (a ++ "_" ++ r.target) none [])
                      r.target (a ++ "_" ++ r.target) with
                  | none => rw [hinner] at hsel; cases hsel
                  | some qb2 =>
                    rw [hinner] at hsel
                    have hchild := (ih (f2 + 1) (Nat.lt_succ_self (f2 + 1))).1 c ccs
                      (qb.leftJoin (a ++ "." ++ r.target) (a ++ "_" ++ r.target) none [])
                      r.target (a ++ "_" ++ r.target) qb2 hcc hinner
                    have hlift : MinimalAdds mdb cs (GoodJoinV mdb cs)
                        (qb.leftJoin (a ++ "." ++ r.target) (a ++ "_" ++ r.target) none [])
                        qb2 :=
                      MinimalAdds.mono_lift (GoodSel_lift hch hcc) (GoodJoinV_lift hch hcc) hchild
                    have hrest2 := (ih (f2 + 1) (Nat.lt_succ_self (f2 + 1))).2 cs qb2 a rest qb'
                      hrest hsel
                    exact (hjoin.trans hlift).trans hrest2
          · rw [if_neg hp] at hsel
            exact (ih f (Nat.lt_succ_self f)).2 cs qb a rest qb' hrest hsel

/-- `selectH`'s per-relation FROM-and-join step only adds a join for a
requested relation (added FROM clauses are not constrained by the claim). -/
theorem joinH_minimal (mdb : MetaDB) (cs : List (String × J)) {ent : String}
    {r : RelMeta} (hr : r ∈ (mdb ent).relations)
    (hreq : (objLookup cs r.propertyName).isSome = true) (a : String) (qb : QB) :
    MinimalAdds mdb cs (GoodJoinH mdb cs) qb
      ((qb.addFrom r.target r.target).leftJoin
        (a ++ "." ++ r.propertyName) (a ++ "_" ++ r.target) none []) := by
  refine ⟨fun x hx => Or.inl hx, fun j hj => ?_⟩
  rcases List.mem_append.mp hj with h | h
  · exact Or.inl h
  · rcases List.mem_singleton.mp h with rfl
    exact Or.inr ⟨a, ent, r, hr, Requested.here hreq, rfl⟩

theorem selectH_minimal_aux (mdb : MetaDB) :
    ∀ fuel : Nat,
      (∀ (s : J) (cs : List (String × J)) (qb : QB) (model a : String)
          (h0 : List (String × String)) (qb' : QB) (hist' : List (String × String)),
        childrenOf s = some cs →
        selectH mdb fuel (.node s) qb model a h0 = some (qb', hist') →
        MinimalAdds mdb cs (GoodJoinH mdb cs) qb qb') ∧
      (∀ (cs : List (String × J)) (qb : QB) (a : String) (rels : List RelMeta) (qb' : QB),
        (∀ r ∈ rels, ∃ ent, r ∈ (mdb ent).relations) →
        selectHRelsSel mdb fuel cs qb a rels = some qb' →
        MinimalAdds mdb cs (GoodJoinH mdb cs) qb qb') := by
  intro fuel
  induction fuel using Nat.strong_induction_on with
  | _ fuel ih =>
    constructor
    · intro s cs qb model a h0 qb' hist' hcs hsel
      cases fuel with
      | zero => simp [selectH] at hsel
      | succ f =>
        simp only [selectH] at hsel
        rw [hcs] at hsel
        dsimp only at hsel
        cases hrels2 : selectHRelsSel mdb f cs
            (((mdb model).columns.filter (fun c => (objLookup cs c).isSome)).foldl
              (fun acc c => acc.addSelect (a ++ "." ++ c) (some (a ++ "_" ++ c))) qb)
            a (mdb model).relations with
        | none => rw [hrels2] at hsel; cases hsel
        | some qb2 =>
          rw [hrels2] at hsel
          simp only [Option.some.injEq, Prod.mk.injEq] at hsel
          rw [← hsel.1]
          exact (fold_minimal mdb cs (GoodJoinH mdb cs) model a qb).trans
            ((ih f (Nat.lt_succ_self f)).2 cs _ a (mdb model).relations qb2
              (fun r hr => ⟨model, hr⟩) hrels2)
    · intro cs qb a rels qb' hrels hsel
      cases rels with
      | nil =>
        cases fuel with
        | zero =>
          simp only [selectHRelsSel, Option.some.injEq] at hsel
          rw [← hsel]
          exact MinimalAdds.refl mdb cs _ qb
        | succ f =>
          simp only [selectHRelsSel, Option.some.injEq] at hsel
          rw [← hsel]
          exact MinimalAdds.refl mdb cs _ qb
      | cons r rest =>
        cases fuel with
        | zero => simp [selectHRelsSel] at hsel
        | succ f =>
          obtain ⟨ent, hent⟩ := hrels r (List.mem_cons_self r rest)
          have hrest : ∀ r' ∈ rest, ∃ ent, r' ∈ (mdb ent).relations :=
            fun r' hr' => hrels r' (List.mem_cons_of_mem r hr')
          simp only [selectHRelsSel] at hsel
          by_cases hp : (objLookup cs r.propertyName).isSome = true
          · rw [if_pos hp] at hsel
            cases hinv : r.inverseRelation with
            | none =>
              rw [hinv] at hsel
              exact (ih f (Nat.lt_succ_self f)).2 cs qb a rest qb' hrest hsel
            | some inv =>
              rw [hinv] at hsel
              obtain ⟨c, hc⟩ := Option.isSome_iff_exists.mp hp
              rw [hc] at hsel
              simp only [selArgOfChild] at hsel
              have hjoin := joinH_minimal mdb cs hent hp a qb
              cases f with
              | zero => simp [selectH] at hsel
              | succ f2 =>
                cases hcc : childrenOf c with
                | none =>
                  simp only [selectH] at hsel
                  rw [hcc] at hsel
                  exact hjoin.trans
                    ((ih (f2 + 1) (Nat.lt_succ_self (f2 + 1))).2 cs _ a rest qb' hrest hsel)
                | some ccs =>
                  cases hinner : selectH mdb (f2 + 1) (.node c)
                      ((qb.addFrom r.target r.target).leftJoin
                        (a ++ "." ++ r.propertyName) (a ++ "_" ++ r.target) none [])
                      r.target (a ++ "_" ++ r.target) [] with
                  | none => rw [hinner] at hsel; cases hsel
                  | some pr =>
                    obtain ⟨qb2, hist2⟩ := pr
                    rw [hinner] at hsel
                    have hchild := (ih (f2 + 1) (Nat.lt_succ_self (f2 + 1))).1 c ccs
                      ((qb.addFrom r.target r.target).leftJoin
                        (a ++ "." ++ r.propertyName) (a ++ "_" ++ r.target) none [])
                      r.target (a ++ "_" ++ r.target) [] qb2 hist2 hcc hinner
                    have hlift : MinimalAdds mdb cs (GoodJoinH mdb cs)
                        ((qb.addFrom r.target r.target).leftJoin
                          (a ++ "." ++ r.propertyName) (a ++ "_" ++ r.target) none [])
                        qb2 :=
                      MinimalAdds.mono_lift (GoodSel_lift hc hcc) (GoodJoinH_lift hc hcc) hchild
                    have hrest2 := (ih (f2 + 1) (Nat.lt_succ_self (f2 + 1))).2 cs qb2 a rest qb'
                      hrest hsel
                    exact (hjoin.trans hlift).trans hrest2
          · rw [if_neg hp] at hsel
            exact (ih f (Nat.lt_succ_self f)).2 cs qb a rest qb' hrest hsel

/-- Claim C7 (projection minimality): for every metadata registry and every
selection object with a (truthy) children map `cs`, whenever either revision
of the query planner completes on that selection, every SELECT clause it
added projects a metadata column whose property name is a key of the
governing selection's children (at the recursion level that added it —
witnessed here by the `Requested` derivation into the selection tree), and
every LEFT JOIN it added is for a metadata relation whose property name is
likewise a key of the governing selection's children: no unrequested column
is selected and no unrequested relation is joined. -/
theorem c7_projection_minimality (mdb : MetaDB) (fuel : Nat) (s : J)
    (cs : List (String × J)) (qb : QB) (model a : String)
    (hcs : childrenOf s = some cs) :
    (∀ qb', selectV mdb fuel (.node s) qb model a = some qb' →
      MinimalAdds mdb cs (GoodJoinV mdb cs) qb qb') ∧
    (∀ (h0 : List (String × String)) (qb' : QB) (hist' : List (String × String)),
      selectH mdb fuel (.node s) qb model a h0 = some (qb', hist') →
      MinimalAdds mdb cs (GoodJoinH mdb cs) qb qb') :=
  ⟨fun qb' h => (selectV_minimal_aux mdb fuel).1 s cs qb model a qb' hcs h,
   fun h0 qb' hist' h =>
     (selectH_minimal_aux mdb fuel).1 s cs qb model a h0 qb' hist' hcs h⟩

/-- An empty selection node (no arguments, no children). -/
def leafSel : J := J.objJ [("arguments", J.objJ []), ("children", J.objJ [])]

/-- The children map of the witness selection: `title` and `owner.id`. -/
def csW : List (String × J) :=
  [("title", leafSel),
   ("owner", J.objJ [("arguments", J.objJ []),
                     ("children", J.objJ [("id", leafSel)])])]

/-- The witness selection object requesting only `title` and `owner.id`. -/
def sW : J := J.objJ [("arguments", J.objJ []), ("children", J.objJ csW)]

/-- The witness metadata: `Post` with columns id/title/content and relation
`owner : User`; `User` with columns id/email and relation `posts : Post`. -/
def mdbW : MetaDB := fun n =>
  if n = "Post" then
    ⟨["id", "title", "content"], [⟨"owner", "User", some ("User", "posts")⟩]⟩
  else ⟨["id", "email"], [⟨"posts", "Post", some ("Post", "owner")⟩]⟩

/-- The planner output of `selectV` on the witness selection. -/
def qbWV : QB := (selectV mdbW 6 (.node sW) QB.empty "Post" "p").getD QB.empty

/-- The planner output of `selectH` on the witness selection. -/
def qbWH : QB :=
  ((selectH mdbW 6 (.node sW) QB.empty "Post" "p" []).getD (QB.empty, [])).1

/-- Witness for C7 at a concrete selection and metadata registry. -/
theorem c7_witness :
    childrenOf sW = some csW ∧
    selectV mdbW 6 (.node sW) QB.empty "Post" "p" = some qbWV ∧
    MinimalAdds mdbW csW (GoodJoinV mdbW csW) QB.empty qbWV ∧
    selectH mdbW 6 (.node sW) QB.empty "Post" "p" [] = some (qbWH, []) ∧
    MinimalAdds mdbW csW (GoodJoinH mdbW csW) QB.empty qbWH :=
  ⟨rfl, rfl,
   (c7_projection_minimality mdbW 6 sW csW QB.empty "Post" "p" rfl).1 qbWV rfl,
   rfl,
   (c7_projection_minimality mdbW 6 sW csW QB.empty "Post" "p" rfl).2 [] qbWH [] rfl⟩

end TypeormLoader
